import Mathlib

/-!
Formal model of `pyDIFRATE/tools/DRtools.py` (Frames Theory Archive).

Numpy float arrays are modelled as row-major lists of rows over `ℚ`.
Operations that can raise a Python exception return `Except String`;
messages printed to stdout (warnings) are returned alongside the result
as a list of strings.  `numpy` shape errors are modelled where the
translated code can reach them; shapes that the data-model invariants
rule out are treated as rectangular.
-/

set_option autoImplicit false

namespace DRtools

/- The rational operations of Batteries are `@[irreducible]`; concrete
evaluations below rely on unfolding them. -/
attribute [local semireducible] Rat.mul Rat.inv Rat.add Rat.sub

abbrev Mat := List (List ℚ)

/-- Column count of a matrix: length of the first row.  Models `shape[1]`
of a rectangular numpy array. -/
def colsOf (m : Mat) : ℕ := (m.headD []).length

/-- Shape `(rows, cols)` of a rectangular matrix. -/
def matShape (m : Mat) : ℕ × ℕ := (m.length, colsOf m)

def matMap (f : ℚ → ℚ) (m : Mat) : Mat := m.map (·.map f)

def zipWith2D (f : ℚ → ℚ → ℚ) (a b : Mat) : Mat := List.zipWith (List.zipWith f) a b

/-- Row-major flattening, `numpy.reshape(total)` of a 2-D array. -/
def flat (m : Mat) : List ℚ := m.flatten

/-- Cut a flat list into `r` rows of `c` entries (row-major), modelling
`numpy.reshape((r, c))` after the total-size check has been made. -/
def reshape (r c : ℕ) (l : List ℚ) : Mat :=
  match r with
  | 0 => []
  | r' + 1 => l.take c :: reshape r' c (l.drop c)

/-- Sum along axis 0 of a stack of equal-length rows (`arr.sum(axis=0)`). -/
def sumAxis0 : List (List ℚ) → List ℚ
  | [] => []
  | [r] => r
  | r :: rest => List.zipWith (· + ·) r (sumAxis0 rest)

/-- Sum along axis 0 of a stack of matrices (3-D `arr.sum(axis=0)`). -/
def sumAxis0M : List Mat → Mat
  | [] => []
  | [m] => m
  | m :: rest => zipWith2D (· + ·) m (sumAxis0M rest)

def colJ (m : Mat) (j : ℕ) : List ℚ := m.map (fun r => r.getD j 0)

def dotQ (a b : List ℚ) : ℚ := (List.zipWith (· * ·) a b).sum

def transposeM (m : Mat) : Mat :=
  (List.range (colsOf m)).map (fun j => colJ m j)

def matMul (a b : Mat) : Mat :=
  a.map (fun row => (List.range (colsOf b)).map (fun j => dotQ row (colJ b j)))

/-- First-row expansion determinant, structurally recursive on a fuel
argument (each recursive call drops one row, so `m.length` fuel is
enough). -/
def detFuel : ℕ → Mat → ℚ
  | 0, _ => 1
  | fuel + 1, m =>
      match m with
      | [] => 1
      | r :: rest =>
          ((List.range r.length).map
            (fun j => (-1 : ℚ) ^ j * r.getD j 0 * detFuel fuel (rest.map (·.eraseIdx j)))).sum

/-- Determinant of a square matrix. -/
def detM (m : Mat) : ℚ := detFuel m.length m

def minorM (m : Mat) (i j : ℕ) : Mat := (m.eraseIdx i).map (·.eraseIdx j)

/-- Adjugate-based inverse of a square matrix; zero matrix when singular. -/
def matInv (a : Mat) : Mat :=
  let d := detM a
  let n := a.length
  if d = 0 then matMap (fun _ => 0) a
  else (List.range n).map (fun i =>
        (List.range n).map (fun j => (-1 : ℚ) ^ (i + j) * detM (minorM a j i) / d))

/-- Model of `np.linalg.lstsq(r, b)[0]` via the normal equations
`(rᵀ r) x = rᵀ b`: exact for full-column-rank `r` (the documented use in
`prod_mat`, which says it equals the pseudo-inverse solution). -/
def leastSquares (r b : Mat) : Mat :=
  matMul (matInv (matMul (transposeM r) r)) (matMul (transposeM r) b)

/-- Integer square root (largest `k` with `k * k ≤ n`), written without
well-founded recursion so that it evaluates inside the kernel. -/
def isqrt (n : ℕ) : ℕ :=
  ((List.range (n + 1)).filter (fun k => k * k ≤ n)).length - 1

/-- Model of `numpy.sqrt` over the rationals: exact whenever the argument
is the square of a rational, which is the only case any theorem below
reads through it. -/
def ratSqrt (q : ℚ) : ℚ := (isqrt q.num.toNat : ℚ) / (isqrt q.den : ℚ)

/-! ## The data model

A sensitivity object exposes `_rho_eff(mdl_num=None)[0]` (a
`numDetectors × numSamples` matrix) and `tc()` (the sampled decay-rate
axis, read at both ends through `tc()[[0,-1]]`). -/

structure Sens where
  rho : Mat
  tc : List ℚ
  deriving DecidableEq, Inhabited

/-- The enumerated optional data fields of a pyDIFRATE data object, in
the order of the `flds` list inside `append_data`. -/
inductive Field
  | fR | fR_std | fR_u | fR_l | fRc | fRin | fRin_std | fS2 | fS2in | fS2in_std | fS2c
  deriving DecidableEq

def Field.all : List Field :=
  [.fR, .fR_std, .fR_u, .fR_l, .fRc, .fRin, .fRin_std, .fS2, .fS2in, .fS2in_std, .fS2c]

def Field.name : Field → String
  | .fR => "R"
  | .fR_std => "R_std"
  | .fR_u => "R_u"
  | .fR_l => "R_l"
  | .fRc => "Rc"
  | .fRin => "Rin"
  | .fRin_std => "Rin_std"
  | .fS2 => "S2"
  | .fS2in => "S2in"
  | .fS2in_std => "S2in_std"
  | .fS2c => "S2c"

/-- A pyDIFRATE data object ("Response Set").  Following the design note
of the specification, optional attributes are tagged-optional fields:
`none` models an absent / `None` attribute. -/
structure Obj where
  R : Option Mat := none
  R_std : Option Mat := none
  R_u : Option Mat := none
  R_l : Option Mat := none
  Rc : Option Mat := none
  Rin : Option Mat := none
  Rin_std : Option Mat := none
  S2 : Option Mat := none
  S2in : Option Mat := none
  S2in_std : Option Mat := none
  S2c : Option Mat := none
  label : Option (List String) := none
  sens : Option Sens := none
  deriving DecidableEq, Inhabited

def getF (o : Obj) : Field → Option Mat
  | .fR => o.R
  | .fR_std => o.R_std
  | .fR_u => o.R_u
  | .fR_l => o.R_l
  | .fRc => o.Rc
  | .fRin => o.Rin
  | .fRin_std => o.Rin_std
  | .fS2 => o.S2
  | .fS2in => o.S2in
  | .fS2in_std => o.S2in_std
  | .fS2c => o.S2c

def setF (o : Obj) (f : Field) (v : Option Mat) : Obj :=
  match f with
  | .fR => { o with R := v }
  | .fR_std => { o with R_std := v }
  | .fR_u => { o with R_u := v }
  | .fR_l => { o with R_l := v }
  | .fRc => { o with Rc := v }
  | .fRin => { o with Rin := v }
  | .fRin_std => { o with Rin_std := v }
  | .fS2 => { o with S2 := v }
  | .fS2in => { o with S2in := v }
  | .fS2in_std => { o with S2in_std := v }
  | .fS2c => { o with S2c := v }

/-- `np.concatenate(ms, axis=0)` on 2-D blocks: succeeds when all rows of
all blocks share one length, else `none` (the `ValueError` caught inside
`append_data`). -/
def npConcat (ms : List Mat) : Option Mat :=
  match ms.flatten with
  | [] => some []
  | r :: rest => if rest.all (fun row => row.length = r.length) then some (r :: rest) else none

/-- `dict2list`: keep the entries that have all three of `R`, `R_std` and
`label`, in dictionary (insertion) order; return the kept data objects
and the corresponding keys. -/
def dict2list : List (String × Obj) → List Obj × List String
  | [] => ([], [])
  | (l, d) :: rest =>
      let (ds, ls) := dict2list rest
      if d.R.isSome ∧ d.R_std.isSome ∧ d.label.isSome then (d :: ds, l :: ls) else (ds, ls)

/-! ## Sign reconciliation (`sens_sign_check`) -/

/-- The subsampling stride `step = np.array(numSamples/10).astype(int)`:
truncating division, with no lower clamp. -/
def strideOf (n : ℕ) : ℕ := n / 10

/-- `l[::step]` for a positive step: every `step`-th element. -/
def sliceEvery {α : Type} (step : ℕ) (l : List α) : List α :=
  (l.enum.filter (fun p => p.1 % step = 0)).map Prod.snd

/-- `m[:, ::step]`; a zero step raises `ValueError` in Python. -/
def sliceStepCols (step : ℕ) (m : Mat) : Except String Mat :=
  if step = 0 then .error "slice step cannot be zero"
  else .ok (m.map (sliceEvery step))

/-- `tc()[[0,-1]]`: both end coordinates of the decay-rate axis. -/
def endsOf (l : List ℚ) : Except String (ℚ × ℚ) :=
  match l with
  | [] => .error "index -1 is out of bounds for axis 0 with size 0"
  | a :: rest => .ok (a, (a :: rest).getLastD a)

/-- Value of a float division `a / b` in numpy, keeping the three special
outcomes that the sign check distinguishes. -/
inductive RVal
  | fin (q : ℚ) | pinf | ninf | nan
  deriving DecidableEq

def ratioRV (a b : ℚ) : RVal :=
  if b = 0 then (if 0 < a then .pinf else if a < 0 then .ninf else .nan) else .fin (a / b)

def ratioMat (a b : Mat) : List (List RVal) :=
  List.zipWith (List.zipWith ratioRV) a b

/-- Entrywise test `np.abs(np.abs(test)-1) > 1e-3`; `nan` comparisons are
false in numpy, infinities exceed every threshold. -/
def deviatesRV : RVal → Bool
  | .fin q => decide ((1 : ℚ)/1000 < |(|q| - 1)|)
  | .pinf => true
  | .ninf => true
  | .nan => false

/-- `np.sign` on a ratio value; `nan` propagates (modelled as `none`). -/
def signRV : RVal → Option ℚ
  | .fin q => some (if q < 0 then -1 else if q = 0 then 0 else 1)
  | .pinf => some 1
  | .ninf => some (-1)
  | .nan => none

def insSorted (a : ℚ) : List ℚ → List ℚ
  | [] => [a]
  | b :: t => if a ≤ b then a :: b :: t else b :: insSorted a t

def sortQ (l : List ℚ) : List ℚ := l.foldr insSorted []

def countQ (vals : List ℚ) (q : ℚ) : ℕ := (vals.filter (fun x => x = q)).length

/-- `scipy.stats.mode` along one axis (pre-1.9 implementation): iterate the
sorted unique scores, keep the first score whose count strictly exceeds the
best so far, starting from the scipy initialisation `(0, 0)`.  `nan`
entries (already removed from `vals` by the caller) never win because
`nan == nan` is false; an all-`nan` row therefore yields the initial `0`. -/
def pymodeVals (vals : List ℚ) : ℚ :=
  ((sortQ vals).dedup.foldl
    (fun best s => if best.2 < countQ vals s then (s, countQ vals s) else best)
    ((0 : ℚ), (0 : ℕ))).1

/-- `np.squeeze(mode(np.sign(test), axis=1)[0])`, one entry per detector. -/
def modeSigns (t : List (List RVal)) : List ℚ :=
  t.map (fun row => pymodeVals ((row.map signRV).reduceOption))

def warnDisagree (k : ℕ) : String :=
  "Sensitivities disagree for the " ++ toString k ++ "th data object"

def warnShapes (k : ℕ) : String :=
  "Sensitivity shapes or ranges do not match for the " ++ toString k ++ "th data object"

/-- Sign vector for one candidate, given the subsampled reference profile.
The final `sign[-1][np.isnan(sign[-1])]=1` line of the source is a no-op
here: `pymodeVals` never returns a `nan`. -/
def ssc_one (rhoz0 : Mat) (z0 : ℚ × ℚ) (step nd k : ℕ) (d : Obj) :
    Except String (List ℚ × List String) :=
  match d.sens with
  | none => .ok (List.replicate nd 1, [])
  | some sd => do
      let rhoz ← sliceStepCols step sd.rho
      let zd ← endsOf sd.tc
      if matShape rhoz0 = matShape rhoz ∧ z0 = zd then
        let test := ratioMat rhoz0 rhoz
        if test.any (fun row => row.any deviatesRV) then
          .ok (List.replicate nd 1, [warnDisagree k])
        else
          .ok (modeSigns test, [])
      else
        .ok (List.replicate nd 1, [warnShapes k])

def ssc_loop (rhoz0 : Mat) (z0 : ℚ × ℚ) (step nd : ℕ) (k : ℕ) :
    List Obj → Except String (List (List ℚ) × List String)
  | [] => .ok ([], [])
  | d :: rest => do
      let (s, w) ← ssc_one rhoz0 z0 step nd k d
      let (ss, ws) ← ssc_loop rhoz0 z0 step nd (k + 1) rest
      .ok (s :: ss, w ++ ws)

/-- `sens_sign_check(data0, data_in)`: one sign vector per candidate. -/
def sens_sign_check (data0 : Obj) (data_in : List Obj) :
    Except String (List (List ℚ) × List String) :=
  match data0.sens with
  | some s0 => do
      let step := strideOf (colsOf s0.rho)
      let rhoz0 ← sliceStepCols step s0.rho
      let z0 ← endsOf s0.tc
      match data0.R with
      | none => .error "NoneType object has no attribute shape"
      | some r0 => ssc_loop rhoz0 z0 step (colsOf r0) 0 data_in
  | none =>
      match data0.R with
      | none => .error "NoneType object has no attribute shape"
      | some r0 => .ok (data_in.map (fun _ => List.replicate (colsOf r0) 1), [])

/-! ## Weighted averaging (`avg_data`) -/

def corrSVDloop (rhoz0 : Mat) : List Obj → Except String (List Mat × List Mat)
  | [] => .ok ([], [])
  | d :: rest =>
      match d.sens, d.R, d.R_std with
      | some sd, some Rd, some Sd => do
          let mat := matMul rhoz0 (transposeM sd.rho)
          let (Rs, Vs) ← corrSVDloop rhoz0 rest
          .ok (transposeM (matMul mat (transposeM Rd)) :: Rs,
               transposeM (matMul mat (transposeM (matMap (fun v => v * v) Sd))) :: Vs)
      | _, _, _ => .error "NoneType object has no attribute"

/-- `corr_SVD_switching`: project each candidate through the
profile-correlation matrix of its sensitivities with the reference. -/
def corr_SVD_switching (data0 : Obj) (data_in : List Obj) :
    Except String (List Mat × List Mat) :=
  match data0.sens with
  | none => .error "NoneType object has no attribute _rho_eff"
  | some s0 => corrSVDloop s0.rho data_in

/-- `s * d.R`: the per-detector sign vector broadcast along rows. -/
def scaleCols (s : List ℚ) (m : Mat) : Mat :=
  m.map (fun row => List.zipWith (· * ·) s row)

/-- Signed flattened responses and flattened variances, one row per input;
`reshape(np.prod(SZ))` raises when the total size differs. -/
def avgStacks (SZ : ℕ × ℕ) : List (Obj × List ℚ) →
    Except String (List (List ℚ) × List (List ℚ))
  | [] => .ok ([], [])
  | (d, s) :: rest =>
      match d.R, d.R_std with
      | some Rd, some Sd =>
          let r := flat (scaleCols s Rd)
          let v := flat (matMap (fun x => x * x) Sd)
          if r.length = SZ.1 * SZ.2 ∧ v.length = SZ.1 * SZ.2 then do
            let (rs, vs) ← avgStacks SZ rest
            .ok (r :: rs, v :: vs)
          else .error "cannot reshape array"
      | _, _ => .error "unsupported operand type for NoneType"

/-- `wt / wt.sum(axis=0)`. -/
def normWeights (w : List (List ℚ)) : List (List ℚ) :=
  let s := sumAxis0 w
  w.map (fun row => List.zipWith (· / ·) row s)

/-- Row-times-weight with the numpy length-1 broadcast (used when an
explicit `weight` of shape `(k, 1)` is supplied). -/
def mulBroadcast (row w : List ℚ) : List ℚ :=
  if w.length = 1 then row.map (fun x => x * w.headD 0)
  else List.zipWith (· * ·) row w

/-- `R=(R*wt).sum(axis=0)` and `Rvar=(Rvar*(wt**2)).sum(axis=0)` on the
`(k × prod SZ)` stacks. -/
def combineW (Rstack Rvarstack : List (List ℚ)) (weighted : Bool)
    (weight : Option (List (List ℚ))) : List ℚ × List ℚ :=
  if weighted then
    let wt := match weight with
      | none => normWeights (Rvarstack.map (·.map (fun v => 1 / v)))
      | some w => normWeights w
    (sumAxis0 (List.zipWith mulBroadcast Rstack wt),
     sumAxis0 (List.zipWith (fun v w => mulBroadcast v (w.map (fun q => q * q))) Rvarstack wt))
  else
    let c := 1 / (Rstack.length : ℚ)
    (sumAxis0 (Rstack.map (·.map (· * c))),
     sumAxis0 (Rvarstack.map (·.map (· * (c * c)))))

/-- The same combination on unreshaped matrices (the `r_no_opt` path works
on the 3-D stack directly).  An explicit `weight` is modelled as one
scalar weight per input (its first entry). -/
def combineMW (Rstack Rvarstack : List Mat) (weighted : Bool)
    (weight : Option (List (List ℚ))) : Mat × Mat :=
  if weighted then
    match weight with
    | none =>
        let inv := Rvarstack.map (matMap (fun v => 1 / v))
        let s := sumAxis0M inv
        let wt := inv.map (fun m => zipWith2D (· / ·) m s)
        (sumAxis0M (List.zipWith (zipWith2D (· * ·)) Rstack wt),
         sumAxis0M (List.zipWith (fun v w => zipWith2D (· * ·) v (matMap (fun q => q * q) w))
           Rvarstack wt))
    | some w =>
        let wn := (normWeights w).map (fun row => row.headD 0)
        (sumAxis0M (List.zipWith (fun m c => matMap (· * c) m) Rstack wn),
         sumAxis0M (List.zipWith (fun m c => matMap (· * (c * c)) m) Rvarstack wn))
  else
    let c := 1 / (Rstack.length : ℚ)
    (sumAxis0M (Rstack.map (matMap (· * c))),
     sumAxis0M (Rvarstack.map (matMap (· * (c * c)))))

/-- Input collection: a list of data objects or a keyed dictionary. -/
inductive DataIn
  | list (l : List Obj)
  | dict (d : List (String × Obj))

/-- `avg_data(data_in, weighted, weight, r_no_opt)`. -/
def avg_data (din : DataIn) (weighted : Bool) (weight : Option (List (List ℚ)))
    (r_no_opt : Bool) : Except String (Obj × List String) :=
  let data_in := match din with
    | .list l => l
    | .dict d => (dict2list d).1
  match data_in with
  | [] => .error "list index out of range"
  | d0 :: _ =>
    -- data = data_in[0].copy(): a (successful) deep copy
    let data := d0
    if r_no_opt then do
      let (Rs, Vs) ← corr_SVD_switching data data_in
      let (rc, vc) := combineMW Rs Vs weighted weight
      .ok ({ data with R := some rc, R_std := some (matMap ratSqrt vc),
                       R_u := none, R_l := none }, [])
    else
      match data.R with
      | none => .error "NoneType object has no attribute shape"
      | some R0 => do
        let SZ := matShape R0
        let (sign, ws) ← sens_sign_check data data_in
        let (rs, vs) ← avgStacks SZ (List.zipWith (fun d s => (d, s)) data_in sign)
        let (rc, vc) := combineW rs vs weighted weight
        .ok ({ data with R := some (reshape SZ.1 SZ.2 rc),
                         R_std := some (matMap ratSqrt (reshape SZ.1 SZ.2 vc)),
                         R_u := none, R_l := none }, ws)

/-! ## Concatenation (`append_data`) -/

/-- The `labels` argument: `None`, the empty string (which suppresses the
dictionary keys) or a list of per-input label strings. -/
inductive LabelsArg
  | noLabels
  | emptyStr
  | lbls (l : List String)

def collectF (data_in : List Obj) (f : Field) : List Mat :=
  data_in.filterMap (fun d => getF d f)

/-- One iteration of the field loop: concatenate the collected blocks; on
a shape mismatch the `except` swallows the error and the attribute keeps
the value it had in the copied first input. -/
def appendFieldStep (data_in : List Obj) (o : Obj) (f : Field) : Obj :=
  let coll := collectF data_in f
  if coll = [] then o
  else
    match npConcat coll with
    | some m => setF o f (some m)
    | none => o

def omitMsg (f : Field) : String :=
  "Warning: Data sizes for \"" ++ f.name ++ "\" do not match and have been omitted"

def appendWarns (data_in : List Obj) : List String :=
  Field.all.filterMap (fun f =>
    let coll := collectF data_in f
    if coll ≠ [] ∧ npConcat coll = none then some (omitMsg f) else none)

/-- Per-input label lists: `d.label`, or `str(labels[k]) + str(l)` when a
label list is supplied (`labels[k]` raises when `labels` is too short, and
an empty-string `labels` raises on its first subscript). -/
def collectLabels : LabelsArg → ℕ → List Obj → Except String (List (List String))
  | _, _, [] => .ok []
  | .noLabels, k, d :: rest =>
      match d.label with
      | none => .error "concatenate of NoneType"
      | some l => do
          let ls ← collectLabels .noLabels (k + 1) rest
          .ok (l :: ls)
  | .emptyStr, _, _ :: _ => .error "string index out of range"
  | .lbls labs, k, d :: rest =>
      if h : k < labs.length then
        match d.label with
        | none => .error "NoneType object is not iterable"
        | some l => do
            let ls ← collectLabels (.lbls labs) (k + 1) rest
            .ok ((l.map (fun s => labs.get ⟨k, h⟩ ++ s)) :: ls)
      else .error "list index out of range"

/-- `x0=np.zeros(x.shape); x0[index]=x`: scatter rows into a zero array of
the same shape (non-negative indices; an out-of-range index raises). -/
def scatterGo : Mat → List (ℕ × List ℚ) → Except String Mat
  | z, [] => .ok z
  | z, (i, row) :: rest =>
      if i < z.length then scatterGo (z.set i row) rest
      else .error "index out of bounds"

def scatterRows (idx : List ℕ) (m : Mat) : Except String Mat :=
  if idx.length ≠ m.length then .error "shape mismatch in index assignment"
  else scatterGo (m.map (fun row => row.map (fun _ => (0 : ℚ)))) (idx.zip m)

def scatterGoS : List String → List (ℕ × String) → Except String (List String)
  | z, [] => .ok z
  | z, (i, s) :: rest =>
      if i < z.length then scatterGoS (z.set i s) rest
      else .error "index out of bounds"

/-- `lbl=np.empty(...); lbl[index]=data.label` (the uninitialised entries
are modelled as empty strings; every position is hit when `index` is a
permutation, the intended use). -/
def scatterLabels (idx : List ℕ) (l : List String) : Except String (List String) :=
  if idx.length ≠ l.length then .error "shape mismatch in index assignment"
  else scatterGoS (l.map (fun _ => "")) (idx.zip l)

def indexPhase (idx : List ℕ) (data : Obj) : Except String Obj := do
  let data ← Field.all.foldlM (fun o f =>
      match getF o f with
      | none => pure o
      | some m => do
          let m' ← scatterRows idx m
          pure (setF o f (some m'))) data
  match data.label with
  | none => pure data
  | some l => do
      let l' ← scatterLabels idx l
      pure { data with label := some l' }

/-- `append_data(data_in, labels, index)`. -/
def append_data (din : DataIn) (labels0 : LabelsArg) (index : Option (List ℕ)) :
    Except String (Obj × List String) :=
  let (data_in, labels) := match din with
    | .dict d =>
        let (ds, keys) := dict2list d
        match labels0 with
        | .noLabels => (ds, LabelsArg.lbls keys)
        | .emptyStr => (ds, LabelsArg.noLabels)
        | .lbls l => (ds, LabelsArg.lbls l)
    | .list l => (l, labels0)
  match data_in with
  | [] => .error "list index out of range"
  | d0 :: _ => do
    -- data = data_in[0].copy(); the sign vectors are computed but never used
    let (_sign, ws) ← sens_sign_check d0 data_in
    let lbl ← collectLabels labels 0 data_in
    let data := Field.all.foldl (appendFieldStep data_in) d0
    let data := { data with label := some lbl.flatten }
    match index with
    | none => .ok (data, ws ++ appendWarns data_in)
    | some idx => do
        let data ← indexPhase idx data
        .ok (data, ws ++ appendWarns data_in)

/-! ## Product detectors (`prod_mat`, `calc_prod`) -/

/-- A detector-basis argument: either a raw matrix or an object exposing a
`.r()` accessor (`hasattr(r,'r')`). -/
inductive RArg
  | raw (m : Mat)
  | det (m : Mat)

def RArg.resolve : RArg → Mat
  | .raw m => m
  | .det m => m

/-- `np.dot(np.atleast_2d(row2).T, np.atleast_2d(row1)).reshape(n1*n2)`:
the flattened outer product, `row2` indexing the slow axis. -/
def outerFlat (row2 row1 : List ℚ) : List ℚ :=
  row2.flatMap (fun a => row1.map (fun b => a * b))

/-- `prod_mat(r1, r2=None, r=None)`. -/
def prod_mat (r1 : RArg) (r2 : Option RArg) (r : Option RArg) : Mat :=
  let r1m := r1.resolve
  let r2m := (r2.getD (.raw r1m)).resolve
  let rm := (r.getD (.raw r1m)).resolve
  let pr0 := List.zipWith (fun row1 row2 => outerFlat row2 row1) r1m r2m
  leastSquares rm pr0

/-- One row of the first-order variance propagation:
`x = (var1/row1)` column-repeated `n2` times, `y = (var2/row2)` row-repeated
`n1` times, result `f**2 * (x + y)`.  Note that `row1` ranges over the rows
of the freshly reassigned `R1` (the combined responses), exactly as in the
source, so the division raises a broadcast error unless the target
detector count equals `n1`. -/
def varRow (n1 n2 : ℕ) (row1 row2 var1 var2 f : List ℚ) : Except String (List ℚ) :=
  if var1.length ≠ row1.length then .error "operands could not be broadcast together"
  else
    let q1 := List.zipWith (· / ·) var1 row1
    if q1.length ≠ n1 then .error "cannot reshape array"
    else if var2.length ≠ row2.length then .error "operands could not be broadcast together"
    else
      let q2 := List.zipWith (· / ·) var2 row2
      if q2.length ≠ n2 then .error "cannot reshape array"
      else
        let x := q1.flatMap (List.replicate n2)
        let y := (List.replicate n1 q2).flatten
        .ok (List.zipWith (fun fe s => fe * fe * s) f (List.zipWith (· + ·) x y))

/-- The `zip(R1, R2, R1_var, R2_var, p1p2.T)` loop (Python `zip` truncates
at the shortest argument). -/
def varRowsGo (n1 n2 : ℕ) :
    List (List ℚ) → List (List ℚ) → List (List ℚ) → List (List ℚ) → List (List ℚ) →
    Except String Mat
  | row1 :: a, row2 :: b, var1 :: c, var2 :: d, f :: e => do
      let pv ← varRow n1 n2 row1 row2 var1 var2 f
      let rest ← varRowsGo n1 n2 a b c d e
      .ok (pv :: rest)
  | _, _, _, _, _ => .ok []

/-- The `while len(R)>0` fold of `calc_prod`, processing the reversed
lists head-first (Python pops from the end). -/
def calcLoop (rT : Mat) :
    List Mat → List Mat → List Mat → Mat → Mat → Mat → Except String (Mat × Mat)
  | [], _, _, r1v, r1var, _ =>
      -- keep the unused binders named for clarity
      let _ := r1v
      .ok (r1v, r1var)
  | R2 :: Rrest, Srev, r0rev, R1, R1var, r1 =>
      match r0rev with
      | [] => .error "pop from empty list"
      | r2 :: r0rest =>
        match Srev with
        | [] => .error "pop from empty list"
        | S2 :: Srest => do
          let n1 := colsOf r1
          let n2 := colsOf r2
          let pr := prod_mat (.raw r1) (some (.raw r2)) (some (.raw rT))
          let p1p2rows := List.zipWith (fun rowA rowB => outerFlat rowB rowA) R1 R2
          let R1' := transposeM (matMul pr (transposeM p1p2rows))
          let R2var := matMap (fun v => v * v) S2
          let p1p2var ← varRowsGo n1 n2 R1' R2 R1var R2var p1p2rows
          let R1var' := transposeM (matMul pr (transposeM p1p2var))
          calcLoop rT Rrest Srest r0rest R1' R1var' rT

/-- The `data` argument of `calc_prod`: a single data object or a list. -/
inductive DataArg
  | single (d : Obj)
  | many (l : List Obj)

/-- The `r` argument of `calc_prod`: one basis or a per-factor list. -/
inductive RsArg
  | one (r : RArg)
  | many (l : List RArg)

def needNfMsg : String :=
  "If a list of data is not provided, then the number of frames must be given"

def collectRS : List Obj → Except String (List (Mat × Mat))
  | [] => .ok []
  | d :: rest =>
      match d.R, d.R_std with
      | some a, some b => do
          let t ← collectRS rest
          .ok ((a, b) :: t)
      | _, _ => .error "NoneType object has no attribute"

/-- `calc_prod(data, r, nf)`.  The user-input check prints a message and
returns `None` (not an exception) when `data` is not a list and `nf` is
missing. -/
def calc_prod (data : DataArg) (r : RsArg) (nf : Option ℕ) :
    Except String (Option Obj × List String) :=
  match data, nf with
  | .single _, none => .ok (none, [needNfMsg])
  | _, _ => do
    let (out, R, Sd) ←
      match nf, data with
      | none, .many l =>
          match l with
          | [] => .error "list index out of range"
          | d0 :: _ => do
              let pairs ← collectRS l
              pure (d0, pairs.map Prod.fst, pairs.map Prod.snd)
      | some n_f, .single d =>
          match d.R, d.R_std with
          | some Rd, some Sdm =>
              if n_f = 0 then .error "division by zero"
              else
                let n := Rd.length / n_f
                pure (d, (List.range n_f).map (fun k => (Rd.drop (k * n)).take n),
                         (List.range n_f).map (fun k => (Sdm.drop (k * n)).take n))
          | _, _ => .error "NoneType object has no attribute shape"
      | some _, .many _ => .error "list object has no attribute R"
      | none, .single _ => .error "unreachable"
    let r0 := (match r with
      | .many l => l
      | .one x => List.replicate R.length x).map RArg.resolve
    match r0 with
    | [] => .error "list index out of range"
    | rT :: _ =>
      match R.reverse, r0.reverse, Sd.reverse with
      | R1 :: Rrest, r1 :: r0rest, S1 :: Srest => do
          let (Rf, Vf) ← calcLoop rT Rrest Srest r0rest R1 (matMap (fun v => v * v) S1) r1
          .ok (some { out with R := some Rf, R_std := some (matMap ratSqrt Vf) }, [])
      | _, _, _ => .error "pop from empty list"

/-! ## Linear interpolation / extrapolation (`linear_ex`), 1-D instance -/

/-- `mode.lower()` (ASCII, which covers the mode strings in use). -/
def pyLower (s : String) : String := String.mk (s.data.map Char.toLower)

def diffsQ (l : List ℚ) : List ℚ := List.zipWith (· - ·) l.tail l

def minQ : List ℚ → ℚ
  | [] => 0
  | a :: rest => rest.foldl min a

def maxQ : List ℚ → ℚ
  | [] => 0
  | a :: rest => rest.foldl max a

/-- Lower sentinel: `I0=np.insert(I0,0,0…)`, `x0=[x.min()-1]++x0`; in
`last_slope` mode extrapolate with the slope of the two lowest samples
(`x0[2]`/`I0[2]` raise when the grid has a single point), otherwise repeat
the lowest sample. -/
def lowerFix (mode : String) (x0 I0 : List ℚ) (xmin : ℚ) :
    Except String (List ℚ × List ℚ) :=
  let I0i := (0 : ℚ) :: I0
  let x0i := (xmin - 1) :: x0
  if pyLower mode = "last_slope" then
    match x0i[2]?, I0i[2]? with
    | some xc, some ic =>
        let run := xc - x0i.getD 1 0
        let rise := ic - I0i.getD 1 0
        let slope := rise / run
        .ok (x0i, (I0i.getD 1 0 - slope * (x0i.getD 1 0 - x0i.getD 0 0)) :: I0)
    | _, _ => .error "index 2 is out of bounds"
  else
    .ok (x0i, I0i.getD 1 0 :: I0)

/-- `l[-k]` for `1 ≤ k ≤ |l|`. -/
def negGet (l : List ℚ) (k : ℕ) : Option ℚ :=
  if k ≤ l.length then some (l.getD (l.length - k) 0) else none

/-- Upper sentinel: append a zero and `x.max()+1`; in `last_slope` mode
extrapolate with the slope of the two highest samples, otherwise repeat
the highest sample. -/
def upperFix (mode : String) (x0 I0 : List ℚ) (xmax : ℚ) :
    Except String (List ℚ × List ℚ) :=
  let I0i := I0 ++ [(0 : ℚ)]
  let x0i := x0 ++ [xmax + 1]
  if pyLower mode = "last_slope" then
    match negGet x0i 3, negGet I0i 3 with
    | some x3, some i3 =>
        let x2 := (negGet x0i 2).getD 0
        let i2 := (negGet I0i 2).getD 0
        let x1 := (negGet x0i 1).getD 0
        let slope := (i3 - i2) / (x3 - x2)
        .ok (x0i, I0i.dropLast ++ [i2 - slope * (x2 - x1)])
    | _, _ => .error "index -3 is out of bounds"
  else
    .ok (x0i, I0i.dropLast ++ [(negGet I0i 2).getD 0])

/-- `np.digitize(v, bins)` for ascending `bins` (`searchsorted` from the
right): the number of bin edges not exceeding `v`. -/
def digitizeOne (bins : List ℚ) (v : ℚ) : ℕ :=
  (bins.filter (fun b => b ≤ v)).length

/-- `linear_ex(x0, I0, x, dim=None, mode)` for 1-D `I0` and 1-D `x` (the
only shapes the specification claims exercise; `swapaxes` is the identity
and the matching dimension must be axis 0). -/
def linear_ex (x0 I0 x : List ℚ) (mode : String) : Except String (List ℚ) :=
  let d := diffsQ x0
  if ¬ (d.all (fun q => 0 ≤ q) ∨ d.all (fun q => q ≤ 0)) then
    .error "x0 is not sorted in ascending/descending order"
  else if I0.length ≠ x0.length then
    .error "No dimensions of I0 match the size of x0"
  else
    let p := if d.any (fun q => q < 0) then (x0.reverse, I0.reverse) else (x0, I0)
    match x with
    | [] => .error "zero-size array to reduction operation minimum"
    | _ =>
      match p.1 with
      | [] => .error "index 0 is out of bounds"
      | xh :: _ => do
          let xmin := minQ x
          let xmax := maxQ x
          let (x0b, I0b) ←
            if xmin ≤ xh then lowerFix mode p.1 p.2 xmin else pure (p.1, p.2)
          let (x0c, I0c) ←
            if x0b.getLastD 0 ≤ xmax then upperFix mode x0b I0b xmax else pure (x0b, I0b)
          .ok (x.map (fun v =>
            let i := digitizeOne x0c v
            (I0c.getD (i - 1) 0 * (x0c.getD i 0 - v) + I0c.getD i 0 * (v - x0c.getD (i - 1) 0)) /
              (x0c.getD i 0 - x0c.getD (i - 1) 0)))

/-! ## Object-store semantics

To express which objects a call mutates, the three combination entry
points are also given in state-passing form over an explicit store of
data objects.  Inputs are store indices; `…copy()` allocates a fresh
cell at the end of the store, and every attribute assignment of the
source is a write to that cell.  The values written are computed by the
pure translations above. -/

abbrev Store := List Obj

def Store.get (σ : Store) (i : ℕ) : Obj := σ.getD i default

/-- `setattr(store[i], f, v)`. -/
def writeF (σ : Store) (i : ℕ) (f : Field) (v : Option Mat) : Store :=
  σ.set i (setF (Store.get σ i) f v)

/-- `store[i].label = v`. -/
def writeLabel (σ : Store) (i : ℕ) (v : Option (List String)) : Store :=
  σ.set i { Store.get σ i with label := v }

/-- `avg_data` over a store: allocate the copy of the first input, then
perform the four attribute writes (`R`, `R_std`, `R_u`, `R_l`) on it. -/
def avg_data_st (σ : Store) (ids : List ℕ) (weighted : Bool)
    (weight : Option (List (List ℚ))) (r_no_opt : Bool) : Except String Store :=
  let inputs := ids.map (Store.get σ)
  match inputs with
  | [] => .error "list index out of range"
  | d0 :: _ =>
    let dataId := σ.length
    let σ1 := σ ++ [d0]
    match avg_data (.list inputs) weighted weight r_no_opt with
    | .error e => .error e
    | .ok (res, _) =>
        let σ2 := writeF σ1 dataId .fR res.R
        let σ3 := writeF σ2 dataId .fR_std res.R_std
        let σ4 := writeF σ3 dataId .fR_u none
        .ok (writeF σ4 dataId .fR_l none)

/-- `append_data` over a store: allocate the copy of the first input,
write each enumerated field and the label on it (including the
scatter-inserted values of the `index` phase, which the pure translation
already built into the result). -/
def append_data_st (σ : Store) (ids : List ℕ) (labels0 : LabelsArg)
    (index : Option (List ℕ)) : Except String Store :=
  let inputs := ids.map (Store.get σ)
  match inputs with
  | [] => .error "list index out of range"
  | d0 :: _ =>
    let dataId := σ.length
    let σ1 := σ ++ [d0]
    match append_data (.list inputs) labels0 index with
    | .error e => .error e
    | .ok (res, _) =>
        let σ2 := Field.all.foldl (fun t f => writeF t dataId f (getF res f)) σ1
        .ok (writeLabel σ2 dataId res.label)

/-- `calc_prod` over a store.  The missing-`nf` user-input check returns
before any allocation or write; otherwise `out = …copy()` is allocated
and `out.R`, `out.R_std` are written on it. -/
def calc_prod_st (σ : Store) (arg : ℕ ⊕ List ℕ) (r : RsArg) (nf : Option ℕ) :
    Except String Store :=
  let dataArg := match arg with
    | .inl i => DataArg.single (Store.get σ i)
    | .inr l => DataArg.many (l.map (Store.get σ))
  match calc_prod dataArg r nf with
  | .error e => .error e
  | .ok (none, _) => .ok σ
  | .ok (some res, _) =>
      let base := match dataArg with
        | .single d => d
        | .many l => l.headD default
      let dataId := σ.length
      let σ1 := σ ++ [base]
      let σ2 := writeF σ1 dataId .fR res.R
      .ok (writeF σ2 dataId .fR_std res.R_std)

/-! ## Guard predicates, decidability instances and concrete instances -/

/-- The guard under which the sign check succeeds with an all-ones answer
for identical copies: either no profile, or a profile with at least ten
samples (so the stride is positive), a nonempty rate axis, detector count
matching the response columns, and a nonzero entry in every subsampled
detector row. -/
def SensOK (d : Obj) (R0 : Mat) : Prop :=
  d.sens = none ∨
  ∃ p, d.sens = some p ∧ 10 ≤ colsOf p.rho ∧ p.tc ≠ [] ∧ p.rho.length = colsOf R0 ∧
    ∀ row ∈ p.rho.map (sliceEvery (strideOf (colsOf p.rho))), ∃ x ∈ row, x ≠ 0

instance exceptDecEq {ε α : Type} [DecidableEq ε] [DecidableEq α] :
    DecidableEq (Except ε α) := fun a b =>
  match a, b with
  | .error e, .error f =>
      if h : e = f then .isTrue (by rw [h]) else .isFalse (fun hh => by cases hh; exact h rfl)
  | .ok x, .ok y =>
      if h : x = y then .isTrue (by rw [h]) else .isFalse (fun hh => by cases hh; exact h rfl)
  | .error _, .ok _ => .isFalse (fun hh => by cases hh)
  | .ok _, .error _ => .isFalse (fun hh => by cases hh)

/-- A reference whose profile has 5 samples: the stride is `5 / 10 = 0`. -/
def sens5 : Sens := { rho := [[1, 2, 3, 4, 5]], tc := [1, 2, 3, 4, 5] }

def obj5 : Obj := { R := some [[1]], R_std := some [[1]], label := some ["a"], sens := some sens5 }

/-- A reference whose profile has 7 samples: the stride is `7 / 10 = 0`. -/
def sens7 : Sens := { rho := [[1, 2, 3, 4, 5, 6, 7]], tc := [1, 2, 3, 4, 5, 6, 7] }

def obj7 : Obj := { R := some [[1]], R_std := some [[1]], label := some ["a"], sens := some sens7 }

/-- A profile with 10 samples: the stride is `10 / 10 = 1`. -/
def sens10 : Sens :=
  { rho := [[1, 2, 3, 4, 5, 6, 7, 8, 9, 10]], tc := [1, 2, 3, 4, 5, 6, 7, 8, 9, 10] }

def obj10 : Obj := { R := some [[2]], R_std := some [[1]], label := some ["a"], sens := some sens10 }

/-- The value the field loop of `append_data` leaves in field `f`,
starting from the copied first input's value `prev`. -/
def stepVal (data_in : List Obj) (f : Field) (prev : Option Mat) : Option Mat :=
  let coll := collectF data_in f
  if coll = [] then prev
  else
    match npConcat coll with
    | some m => some m
    | none => prev

def objA : Obj :=
  { R := some [[1, 2]], R_std := some [[3, 4]], R_u := some [[5, 6]], label := some ["x"] }

def objB : Obj :=
  { R := some [[7, 8]], R_std := some [[9, 10]], label := some ["y"] }

def objC7 : Obj :=
  { R := some [[7, 8]], R_std := some [[9, 10]], R_u := some [[11, 12, 13]],
    label := some ["y"] }

/-- The attribute test of `dict2list` as a Boolean. -/
def hasDataAttrs (d : Obj) : Bool := d.R.isSome && d.R_std.isSome && d.label.isSome

def objC1 : Obj := { R := some [[2]], R_std := some [[1]], label := some ["a"] }


/-! ## Helper lemmas: sorting, mode, self-ratios -/

theorem mem_insSorted {a x : ℚ} {l : List ℚ} : x ∈ insSorted a l ↔ x = a ∨ x ∈ l := by
  induction l with
  | nil => simp [insSorted]
  | cons b t ih =>
      by_cases hab : a ≤ b
      · simp [insSorted, hab]
      · simp only [insSorted, if_neg hab, List.mem_cons, ih]
        tauto

theorem length_insSorted (a : ℚ) (l : List ℚ) : (insSorted a l).length = l.length + 1 := by
  induction l with
  | nil => rfl
  | cons b t ih =>
      by_cases hab : a ≤ b
      · simp [insSorted, hab]
      · simp [insSorted, hab, ih]

theorem mem_sortQ {x : ℚ} {l : List ℚ} : x ∈ sortQ l ↔ x ∈ l := by
  induction l with
  | nil => simp [sortQ]
  | cons a t ih =>
      have hs : sortQ (a :: t) = insSorted a (sortQ t) := rfl
      rw [hs, mem_insSorted, List.mem_cons, ih]

theorem length_sortQ (l : List ℚ) : (sortQ l).length = l.length := by
  induction l with
  | nil => rfl
  | cons a t ih =>
      have hs : sortQ (a :: t) = insSorted a (sortQ t) := rfl
      rw [hs, length_insSorted, ih, List.length_cons]

theorem sortQ_ne_nil {l : List ℚ} (h : l ≠ []) : sortQ l ≠ [] := by
  intro hc
  have := length_sortQ l
  rw [hc] at this
  exact h (List.length_eq_zero.mp this.symm)

theorem dedup_const {c : ℚ} : ∀ {l : List ℚ}, l ≠ [] → (∀ x ∈ l, x = c) → l.dedup = [c] := by
  intro l
  induction l with
  | nil => intro h; exact absurd rfl h
  | cons a t ih =>
      intro _ h2
      have ha : a = c := h2 a (List.mem_cons_self a t)
      cases t with
      | nil => simp [ha]
      | cons b t2 =>
          have hb : ∀ x ∈ b :: t2, x = c := fun x hx => h2 x (List.mem_cons_of_mem _ hx)
          have hmem : a ∈ b :: t2 := by
            rw [ha, ← hb b (List.mem_cons_self b t2)]
            exact List.mem_cons_self b t2
          rw [List.dedup_cons_of_mem hmem]
          exact ih (List.cons_ne_nil b t2) hb

theorem countQ_all_eq {l : List ℚ} {c : ℚ} (h : ∀ x ∈ l, x = c) : countQ l c = l.length := by
  unfold countQ
  rw [List.filter_eq_self.mpr]
  intro a ha
  simpa using h a ha

theorem pymode_const {l : List ℚ} {c : ℚ} (h1 : l ≠ []) (h2 : ∀ x ∈ l, x = c) :
    pymodeVals l = c := by
  unfold pymodeVals
  rw [dedup_const (sortQ_ne_nil h1) (fun x hx => h2 x (mem_sortQ.mp hx))]
  have hcount : countQ l c = l.length := countQ_all_eq h2
  have hpos : 0 < l.length := List.length_pos.mpr h1
  simp only [List.foldl_cons, List.foldl_nil]
  rw [if_pos (by rw [hcount]; exact hpos)]

theorem zipWith_self {α β : Type} (f : α → α → β) (l : List α) :
    List.zipWith f l l = l.map (fun x => f x x) := by
  induction l with
  | nil => rfl
  | cons a t ih => simp [ih]

theorem ratioRV_self (x : ℚ) : ratioRV x x = if x = 0 then RVal.nan else RVal.fin 1 := by
  by_cases hx : x = 0
  · simp [ratioRV, hx]
  · simp [ratioRV, hx, div_self hx]

theorem deviates_self (row : List ℚ) :
    (List.zipWith ratioRV row row).any deviatesRV = false := by
  rw [zipWith_self]
  induction row with
  | nil => rfl
  | cons a t ih =>
      simp only [List.map_cons, List.any_cons, ih, Bool.or_false]
      rw [ratioRV_self]
      by_cases ha : a = 0
      · simp [ha, deviatesRV]
      · rw [if_neg ha]
        decide

theorem signRV_one : signRV (RVal.fin 1) = some 1 := by decide

theorem modeSigns_self_row {row : List ℚ} (h : ∃ x ∈ row, x ≠ 0) :
    pymodeVals (((List.zipWith ratioRV row row).map signRV).reduceOption) = 1 := by
  rw [zipWith_self, List.map_map]
  apply pymode_const
  · rcases h with ⟨x0, hx0, hne⟩
    intro hc
    have h1 : some (1 : ℚ) ∈ row.map (signRV ∘ fun x => ratioRV x x) := by
      refine List.mem_map.mpr ⟨x0, hx0, ?_⟩
      show signRV (ratioRV x0 x0) = some 1
      rw [ratioRV_self, if_neg hne, signRV_one]
    have h2 : (1 : ℚ) ∈ (row.map (signRV ∘ fun x => ratioRV x x)).reduceOption := by
      rw [List.reduceOption_mem_iff]
      exact h1
    rw [hc] at h2
    simp at h2
  · intro y hy
    rw [List.reduceOption_mem_iff] at hy
    rcases List.mem_map.mp hy with ⟨x, _, hmap⟩
    have hmap' : signRV (ratioRV x x) = some y := hmap
    by_cases hx : x = 0
    · rw [ratioRV_self, if_pos hx] at hmap'
      simp [signRV] at hmap'
    · rw [ratioRV_self, if_neg hx, signRV_one] at hmap'
      exact (Option.some.inj hmap').symm

theorem modeSigns_self {t : Mat} (h : ∀ row ∈ t, ∃ x ∈ row, x ≠ 0) :
    modeSigns (ratioMat t t) = List.replicate t.length 1 := by
  unfold modeSigns ratioMat
  rw [zipWith_self, List.map_map]
  have h2 : ∀ b ∈ t.map ((fun row => pymodeVals ((row.map signRV).reduceOption)) ∘
      fun x => List.zipWith ratioRV x x), b = 1 := by
    intro b hb
    rcases List.mem_map.mp hb with ⟨row, hrow, hbe⟩
    rw [← hbe]
    exact modeSigns_self_row (h row hrow)
  have h3 := List.eq_replicate_of_mem h2
  simpa [List.length_map] using h3

theorem endsOf_ok {l : List ℚ} (h : l ≠ []) : ∃ z, endsOf l = .ok z := by
  cases l with
  | nil => exact absurd rfl h
  | cons a t => exact ⟨_, rfl⟩

theorem ssc_one_self {p : Sens} {d : Obj} (hd : d.sens = some p) {step : ℕ}
    (hstep : ¬ step = 0) {z0 : ℚ × ℚ} (hz : endsOf p.tc = .ok z0)
    (hnz : ∀ row ∈ p.rho.map (sliceEvery step), ∃ x ∈ row, x ≠ 0) (nd k : ℕ) :
    ssc_one (p.rho.map (sliceEvery step)) z0 step nd k d =
      .ok (List.replicate p.rho.length 1, []) := by
  unfold ssc_one
  rw [hd]
  simp only [sliceStepCols, if_neg hstep, hz, Bind.bind, Except.bind]
  rw [if_pos ⟨trivial, trivial⟩]
  have hdev : (ratioMat (p.rho.map (sliceEvery step)) (p.rho.map (sliceEvery step))).any
      (fun row => row.any deviatesRV) = false := by
    unfold ratioMat
    rw [zipWith_self, List.any_eq_false]
    intro row hrow
    rcases List.mem_map.mp hrow with ⟨r, _, hre⟩
    rw [← hre]
    simp only [deviates_self r, Bool.false_eq_true, not_false_eq_true]
  rw [hdev]
  simp only [Bool.false_eq_true, if_false]
  rw [modeSigns_self hnz]
  simp [List.length_map]

theorem ssc_loop_const {rhoz0 : Mat} {z0 : ℚ × ℚ} {step nd : ℕ} {d : Obj} {vec : List ℚ}
    (h : ∀ k, ssc_one rhoz0 z0 step nd k d = .ok (vec, [])) :
    ∀ (n k : ℕ), ssc_loop rhoz0 z0 step nd k (List.replicate n d) =
      .ok (List.replicate n vec, []) := by
  intro n
  induction n with
  | zero => intro k; rfl
  | succ m ih =>
      intro k
      show ssc_loop rhoz0 z0 step nd k (d :: List.replicate m d) = _
      unfold ssc_loop
      simp only [h k, ih (k + 1), Bind.bind, Except.bind]
      rfl

/-- For identical copies under the `SensOK` guard, the sign check returns
all-ones vectors of length `colsOf R0` and no warnings. -/
theorem ssc_self {d : Obj} {R0 : Mat} (hR : d.R = some R0) (hG : SensOK d R0) (k : ℕ) :
    sens_sign_check d (List.replicate k d) =
      .ok (List.replicate k (List.replicate (colsOf R0) 1), []) := by
  rcases hG with hnone | ⟨p, hp, hcols, htc, hlen, hnz⟩
  · unfold sens_sign_check
    rw [hnone, hR]
    show Except.ok ((List.replicate k d).map fun _ => List.replicate (colsOf R0) 1, []) = _
    rw [List.map_replicate]
  · unfold sens_sign_check
    rw [hp]
    have hstep : ¬ strideOf (colsOf p.rho) = 0 := by
      unfold strideOf
      omega
    rcases endsOf_ok htc with ⟨z0, hz⟩
    simp only [sliceStepCols, if_neg hstep, hz, Bind.bind, Except.bind, hR]
    rw [← hlen]
    exact ssc_loop_const (fun k2 => ssc_one_self hp hstep hz hnz _ k2) k 0

theorem getF_setF_same (o : Obj) (f : Field) (v : Option Mat) :
    getF (setF o f v) f = v := by
  cases f <;> rfl

theorem getF_setF_ne (o : Obj) {f g : Field} (v : Option Mat) (h : f ≠ g) :
    getF (setF o g v) f = getF o f := by
  cases f <;> cases g <;> first | exact (h rfl).elim | rfl

theorem getF_setLabel (o : Obj) (f : Field) (v : Option (List String)) :
    getF { o with label := v } f = getF o f := by
  cases f <;> rfl

theorem mem_field_all (f : Field) : f ∈ Field.all := by
  cases f <;> simp [Field.all]

theorem storeGet_append {σ : Store} (o : Obj) {j : ℕ} (h : j < σ.length) :
    Store.get (σ ++ [o]) j = Store.get σ j := by
  induction σ generalizing j with
  | nil => simp at h
  | cons a t ih =>
      cases j with
      | zero => rfl
      | succ n =>
          have := @ih n (by simpa using h)
          simpa [Store.get, List.getD] using this

theorem storeGet_set_ne {σ : Store} {i j : ℕ} (o : Obj) (h : i ≠ j) :
    Store.get (σ.set i o) j = Store.get σ j := by
  induction σ generalizing i j with
  | nil => rfl
  | cons a t ih =>
      cases i with
      | zero =>
          cases j with
          | zero => exact (h rfl).elim
          | succ n => rfl
      | succ m =>
          cases j with
          | zero => rfl
          | succ n =>
              have := @ih m n (fun hh => h (by rw [hh]))
              simpa [Store.get, List.getD] using this

theorem storeGet_writeF {σ : Store} {i j : ℕ} (f : Field) (v : Option Mat) (h : i ≠ j) :
    Store.get (writeF σ i f v) j = Store.get σ j :=
  storeGet_set_ne _ h

theorem storeGet_writeLabel {σ : Store} {i j : ℕ} (v : Option (List String)) (h : i ≠ j) :
    Store.get (writeLabel σ i v) j = Store.get σ j :=
  storeGet_set_ne _ h

theorem storeGet_foldWriteF {fs : List Field} {σ : Store} {i j : ℕ}
    {g : Field → Option Mat} (h : i ≠ j) :
    Store.get (fs.foldl (fun t f => writeF t i f (g f)) σ) j = Store.get σ j := by
  induction fs generalizing σ with
  | nil => rfl
  | cons f ft ih => rw [List.foldl_cons, ih, storeGet_writeF f (g f) h]

/-- C2: `avg_data`, `append_data` (with any `labels` or `index` argument)
and `calc_prod` leave every input object unchanged: each one builds its
result only in the freshly allocated copy of (the first) input, and the
scatter-insertion of the `index` phase writes only to that copy. -/
theorem c2_inputs_unchanged :
    (∀ (σ : Store) (ids : List ℕ) (weighted : Bool) (weight : Option (List (List ℚ)))
        (rno : Bool) (σ2 : Store) (j : ℕ),
        avg_data_st σ ids weighted weight rno = .ok σ2 → j < σ.length →
        Store.get σ2 j = Store.get σ j) ∧
    (∀ (σ : Store) (ids : List ℕ) (labels0 : LabelsArg) (index : Option (List ℕ))
        (σ2 : Store) (j : ℕ),
        append_data_st σ ids labels0 index = .ok σ2 → j < σ.length →
        Store.get σ2 j = Store.get σ j) ∧
    (∀ (σ : Store) (arg : ℕ ⊕ List ℕ) (r : RsArg) (nf : Option ℕ)
        (σ2 : Store) (j : ℕ),
        calc_prod_st σ arg r nf = .ok σ2 → j < σ.length →
        Store.get σ2 j = Store.get σ j) := by
  refine ⟨?_, ?_, ?_⟩
  · intro σ ids w wt rno σ2 j hok hj
    have hne : σ.length ≠ j := by omega
    simp only [avg_data_st] at hok
    rcases hm : ids.map (Store.get σ) with _ | ⟨d0, rest⟩ <;> rw [hm] at hok
    · exact absurd hok (by simp)
    · rcases hp : avg_data (.list (d0 :: rest)) w wt rno with e | ⟨res, ws⟩ <;>
        rw [hp] at hok
      · exact absurd hok (by simp)
      · have hσ2 : σ2 = writeF (writeF (writeF (writeF (σ ++ [d0]) σ.length .fR res.R)
            σ.length .fR_std res.R_std) σ.length .fR_u none) σ.length .fR_l none := by
          exact (Except.ok.inj hok).symm
        rw [hσ2, storeGet_writeF _ _ hne, storeGet_writeF _ _ hne,
          storeGet_writeF _ _ hne, storeGet_writeF _ _ hne, storeGet_append _ hj]
  · intro σ ids labels0 index σ2 j hok hj
    have hne : σ.length ≠ j := by omega
    simp only [append_data_st] at hok
    rcases hm : ids.map (Store.get σ) with _ | ⟨d0, rest⟩ <;> rw [hm] at hok
    · exact absurd hok (by simp)
    · rcases hp : append_data (.list (d0 :: rest)) labels0 index with e | ⟨res, ws⟩ <;>
        rw [hp] at hok
      · exact absurd hok (by simp)
      · have hσ2 : σ2 = writeLabel (Field.all.foldl
            (fun t f => writeF t σ.length f (getF res f)) (σ ++ [d0])) σ.length res.label := by
          exact (Except.ok.inj hok).symm
        rw [hσ2, storeGet_writeLabel _ hne, storeGet_foldWriteF hne, storeGet_append _ hj]
  · intro σ arg r nf σ2 j hok hj
    have hne : σ.length ≠ j := by omega
    rcases arg with i | l
    · simp only [calc_prod_st] at hok
      rcases hp : calc_prod (DataArg.single (Store.get σ i)) r nf with e | ⟨ores, ws⟩ <;>
        rw [hp] at hok
      · exact absurd hok (by simp)
      · rcases ores with _ | res
        · rw [← Except.ok.inj hok]
        · have hσ2 : σ2 = writeF (writeF (σ ++ [Store.get σ i])
              σ.length .fR res.R) σ.length .fR_std res.R_std := (Except.ok.inj hok).symm
          rw [hσ2, storeGet_writeF _ _ hne, storeGet_writeF _ _ hne, storeGet_append _ hj]
    · simp only [calc_prod_st] at hok
      rcases hp : calc_prod (DataArg.many (l.map (Store.get σ))) r nf with e | ⟨ores, ws⟩ <;>
        rw [hp] at hok
      · exact absurd hok (by simp)
      · rcases ores with _ | res
        · rw [← Except.ok.inj hok]
        · have hσ2 : σ2 = writeF (writeF (σ ++ [(l.map (Store.get σ)).headD default])
              σ.length .fR res.R) σ.length .fR_std res.R_std := (Except.ok.inj hok).symm
          rw [hσ2, storeGet_writeF _ _ hne, storeGet_writeF _ _ hne, storeGet_append _ hj]


/-- C5 (counterexample): for a Response Set whose own sensitivity profile
has 5 samples, `sens_sign_check(d, [d])` does not return an all-ones sign
vector: the subsampling stride is 0 and the call fails with the slice
error, so the claim fails for this `d`. -/
theorem c5_cex : sens_sign_check obj5 [obj5] = .error "slice step cannot be zero" := by
  rfl

/-- C5 (amended): for every Response Set `d` that carries no sensitivity
profile, or whose profile has at least 10 samples, a nonempty rate axis,
detector count matching the response columns and a nonzero entry in every
subsampled detector row, `sens_sign_check(d, [d])` returns exactly one
sign vector, of length equal to the detector count of `d`, with every
entry `+1`. -/
theorem c5_self_sign_all_ones {d : Obj} {R0 : Mat} (hR : d.R = some R0) (hG : SensOK d R0) :
    sens_sign_check d [d] = .ok ([List.replicate (colsOf R0) 1], []) := by
  have h := ssc_self hR hG 1
  simpa using h

/-- C5 (witness): the amended statement evaluated on a concrete profile
with 10 samples. -/
theorem c5_witness : sens_sign_check obj10 [obj10] = .ok ([[1]], []) := by
  have h := @c5_self_sign_all_ones obj10 [[2]] rfl
    (Or.inr ⟨sens10, rfl, by decide, by decide, by decide, by decide⟩)
  simpa using h

/-- C6 (counterexample): for a reference profile with 7 samples the
subsampling is not well-defined: the stride is `7 / 10 = 0` (not clamped
to 1) and the call raises the zero-step slice error. -/
theorem c6_cex : sens_sign_check obj7 [] = .error "slice step cannot be zero" := by
  rfl

/-- C6 (amended): the stride is `floor(numSamples / 10)` with no lower
clamp, so for every reference profile with `1 ≤ numSamples < 10` the
stride is zero and `sens_sign_check` fails with the zero-step slice error
instead of being well-defined. -/
theorem c6_small_profile_fails {d : Obj} {p : Sens} (l : List Obj) (hp : d.sens = some p)
    (h1 : 1 ≤ colsOf p.rho) (h2 : colsOf p.rho < 10) :
    sens_sign_check d l = .error "slice step cannot be zero" := by
  unfold sens_sign_check
  rw [hp]
  have hstep : strideOf (colsOf p.rho) = 0 := by
    unfold strideOf
    omega
  simp [sliceStepCols, hstep, Bind.bind, Except.bind]

/-- C6 (witness): the amended statement evaluated on the concrete
7-sample profile. -/
theorem c6_witness : 1 ≤ colsOf sens7.rho ∧ colsOf sens7.rho < 10 ∧
    sens_sign_check obj7 [obj7] = .error "slice step cannot be zero" :=
  ⟨by decide, by decide, c6_small_profile_fails [obj7] rfl (by decide) (by decide)⟩


theorem npConcat_eq_flatten {ms : List Mat} {mm : Mat} (h : npConcat ms = some mm) :
    mm = ms.flatten := by
  unfold npConcat at h
  split at h
  · next heq =>
      rw [heq]
      exact (Option.some.inj h).symm
  · next r rest heq =>
      split at h
      · rw [heq]
        exact (Option.some.inj h).symm
      · cases h

theorem getF_appendFieldStep_same (data_in : List Obj) (o : Obj) (f : Field) :
    getF (appendFieldStep data_in o f) f = stepVal data_in f (getF o f) := by
  unfold appendFieldStep stepVal
  by_cases hc : collectF data_in f = []
  · rw [if_pos hc, if_pos hc]
  · rw [if_neg hc, if_neg hc]
    rcases npConcat (collectF data_in f) with _ | m
    · rfl
    · exact getF_setF_same o f (some m)

theorem getF_appendFieldStep_ne (data_in : List Obj) (o : Obj) {f g : Field} (h : f ≠ g) :
    getF (appendFieldStep data_in o g) f = getF o f := by
  unfold appendFieldStep
  by_cases hc : collectF data_in g = []
  · rw [if_pos hc]
  · rw [if_neg hc]
    rcases npConcat (collectF data_in g) with _ | m
    · rfl
    · exact getF_setF_ne o (some m) h

theorem getF_fold_not_mem (data_in : List Obj) {fs : List Field} {o : Obj} {f : Field}
    (h : f ∉ fs) :
    getF (fs.foldl (appendFieldStep data_in) o) f = getF o f := by
  induction fs generalizing o with
  | nil => rfl
  | cons g gs ih =>
      rw [List.foldl_cons, ih (fun hm => h (List.mem_cons_of_mem g hm))]
      exact getF_appendFieldStep_ne data_in o (fun he => h (he ▸ List.mem_cons_self g gs))

theorem getF_fold_mem (data_in : List Obj) : ∀ (fs : List Field) (o : Obj) (f : Field),
    f ∈ fs → fs.Nodup →
    getF (fs.foldl (appendFieldStep data_in) o) f = stepVal data_in f (getF o f)
  | [], _, _, hmem, _ => absurd hmem (List.not_mem_nil _)
  | g :: gs, o, f, hmem, hnd => by
      rw [List.foldl_cons]
      by_cases hfg : f = g
      · subst hfg
        rw [getF_fold_not_mem data_in (List.nodup_cons.mp hnd).1, getF_appendFieldStep_same]
      · have hmem' : f ∈ gs := by
          cases List.mem_cons.mp hmem with
          | inl h => exact absurd h hfg
          | inr h => exact h
        rw [getF_fold_mem data_in gs (appendFieldStep data_in o g) f hmem'
          (List.nodup_cons.mp hnd).2]
        rw [getF_appendFieldStep_ne data_in o hfg]


theorem collectLabels_nil (k : ℕ) : collectLabels .noLabels k [] = .ok [] := rfl

theorem collectLabels_cons_some {d : Obj} {l : List String} (hd : d.label = some l)
    {rest : List Obj} {k : ℕ} {lbl : List (List String)}
    (hrest : collectLabels .noLabels (k + 1) rest = .ok lbl) :
    collectLabels .noLabels k (d :: rest) = .ok (l :: lbl) := by
  unfold collectLabels
  rw [hd]
  simp [hrest, Bind.bind, Except.bind]

/-- Reduction of a successful no-labels, no-index `append_data` call to
its field fold, label concatenation and warnings. -/
theorem append_data_reduce {d0 : Obj} {rest : List Obj}
    {sw : List (List ℚ) × List String} {lbl : List (List String)}
    (hsens : sens_sign_check d0 (d0 :: rest) = .ok sw)
    (hlbl : collectLabels .noLabels 0 (d0 :: rest) = .ok lbl) :
    append_data (.list (d0 :: rest)) .noLabels none =
      .ok ({ Field.all.foldl (appendFieldStep (d0 :: rest)) d0 with label := some lbl.flatten },
           sw.2 ++ appendWarns (d0 :: rest)) := by
  unfold append_data
  simp only [hsens, hlbl, Bind.bind, Except.bind]

/-- C3 (amended): for Response Sets `A` and `B` with the same detector
count, provided the preliminary sign check does not fail (it is computed
but unused) and `A` satisfies the data-model invariant that each of its
present fields has one row per label, `append_data([A,B])` succeeds; its
label sequence is the concatenation with `|A.label| + |B.label|` rows,
its first `|A.label|` labels are `A`'s, and for every field that `A`
defines the result defines the field and its first `|A.label|` rows are
exactly `A`'s value.  (Fields defined only by `B` appear in the result
holding `B`'s rows; the claim's slicing property is about `A`'s own
fields.) -/
theorem c3_append_first_rows {A B : Obj} {la lb : List String}
    {sw : List (List ℚ) × List String}
    (hsens : sens_sign_check A [A, B] = .ok sw)
    (hla : A.label = some la) (hlb : B.label = some lb)
    (hnd : colsOf (A.R.getD []) = colsOf (B.R.getD []))
    (hwf : ∀ f : Field, ∀ m ∈ getF A f, m.length = la.length) :
    ∃ res ws, append_data (.list [A, B]) .noLabels none = .ok (res, ws) ∧
      res.label = some (la ++ lb) ∧
      (la ++ lb).length = la.length + lb.length ∧
      (la ++ lb).take la.length = la ∧
      ∀ f : Field, ∀ m ∈ getF A f,
        ∃ mr, getF res f = some mr ∧ mr.take la.length = m := by
  have h01 : collectLabels .noLabels 1 [B] = .ok [lb] :=
    collectLabels_cons_some hlb (collectLabels_nil 2)
  have h0 : collectLabels .noLabels 0 [A, B] = .ok [la, lb] :=
    collectLabels_cons_some hla h01
  refine ⟨_, _, append_data_reduce hsens h0, ?_, List.length_append la lb,
    List.take_left' rfl, ?_⟩
  · simp
  · intro f m hm
    have hAf : getF A f = some m := hm
    have hfold : getF (Field.all.foldl (appendFieldStep [A, B]) A) f =
        stepVal [A, B] f (getF A f) :=
      getF_fold_mem [A, B] Field.all A f (mem_field_all f) (by decide)
    have hres : getF { Field.all.foldl (appendFieldStep [A, B]) A with
        label := some ([la, lb] : List (List String)).flatten } f =
        stepVal [A, B] f (getF A f) := by
      rw [getF_setLabel, hfold]
    have hcoll : collectF [A, B] f = m :: collectF [B] f := by
      unfold collectF
      simp [List.filterMap_cons, hAf]
    have hlen : m.length = la.length := hwf f m hm
    rw [hAf] at hres
    unfold stepVal at hres
    rw [hcoll] at hres
    rw [if_neg (List.cons_ne_nil m (collectF [B] f))] at hres
    rcases hnp : npConcat (m :: collectF [B] f) with _ | mm <;> rw [hnp] at hres
    · exact ⟨m, hres, by rw [← hlen]; exact List.take_of_length_le (le_refl m.length)⟩
    · refine ⟨mm, hres, ?_⟩
      rw [npConcat_eq_flatten hnp]
      show (m ++ (collectF [B] f).flatten).take la.length = m
      exact List.take_left' hlen


/-- C3 (counterexample): two Response Sets with the same detector count
where the first carries a 5-sample profile: `append_data([A,B])` fails
with the zero-step slice error instead of returning the concatenation,
so the claim as stated (for every such pair) is false. -/
theorem c3_cex :
    append_data (.list [obj5, obj10]) .noLabels none = .error "slice step cannot be zero" := by
  rfl

/-- C3 (witness): the amended statement evaluated on two concrete
profile-free Response Sets. -/
theorem c3_witness : ∃ res ws, append_data (.list [objA, objB]) .noLabels none = .ok (res, ws) ∧
    res.label = some ((["x"] : List String) ++ ["y"]) ∧
    ((["x"] : List String) ++ ["y"]).length = (["x"] : List String).length + (["y"] : List String).length ∧
    ((["x"] : List String) ++ ["y"]).take (["x"] : List String).length = ["x"] ∧
    ∀ f : Field, ∀ m ∈ getF objA f,
      ∃ mr, getF res f = some mr ∧ mr.take (["x"] : List String).length = m := by
  refine @c3_append_first_rows objA objB ["x"] ["y"] ([[1, 1], [1, 1]], []) (by rfl) rfl rfl
    (by decide) ?_
  intro f m hm
  cases f <;> simp [getF, objA] at hm <;> simp [← hm]


theorem collectLabels_all_some {ins : List Obj} (h : ∀ d ∈ ins, d.label.isSome) :
    ∀ k : ℕ, ∃ lbl, collectLabels .noLabels k ins = .ok lbl := by
  induction ins with
  | nil => exact fun k => ⟨[], rfl⟩
  | cons d rest ih =>
      intro k
      rcases Option.isSome_iff_exists.mp (h d (List.mem_cons_self d rest)) with ⟨l, hl⟩
      rcases ih (fun x hx => h x (List.mem_cons_of_mem d hx)) (k + 1) with ⟨lbl, hlbl⟩
      exact ⟨l :: lbl, collectLabels_cons_some hl hlbl⟩

/-- C7 (amended): when one enumerated field has shape-incompatible blocks
across the inputs that define it, `append_data` does not fail: the
concatenated value for that field is discarded with a warning naming the
field, the result retains the copied first input's value for it (so the
field is omitted only when the first input lacked it), and every field
whose blocks concatenate successfully is set to the concatenation. -/
theorem c7_incompatible_field_retains_first {d0 : Obj} {rest : List Obj}
    {sw : List (List ℚ) × List String} {f : Field}
    (hsens : sens_sign_check d0 (d0 :: rest) = .ok sw)
    (hlab : ∀ d ∈ d0 :: rest, d.label.isSome)
    (hcoll : collectF (d0 :: rest) f ≠ [])
    (hbad : npConcat (collectF (d0 :: rest) f) = none) :
    ∃ res ws, append_data (.list (d0 :: rest)) .noLabels none = .ok (res, ws) ∧
      getF res f = getF d0 f ∧
      omitMsg f ∈ ws ∧
      ∀ g mm, npConcat (collectF (d0 :: rest) g) = some mm →
        collectF (d0 :: rest) g ≠ [] → getF res g = some mm := by
  rcases collectLabels_all_some hlab 0 with ⟨lbl, hlbl⟩
  refine ⟨_, _, append_data_reduce hsens hlbl, ?_, ?_, ?_⟩
  · rw [getF_setLabel, getF_fold_mem _ Field.all d0 f (mem_field_all f) (by decide)]
    unfold stepVal
    rw [if_neg hcoll, hbad]
  · refine List.mem_append.mpr (Or.inr ?_)
    unfold appendWarns
    exact List.mem_filterMap.mpr ⟨f, mem_field_all f, by rw [if_pos ⟨hcoll, hbad⟩]⟩
  · intro g mm hg hgne
    rw [getF_setLabel, getF_fold_mem _ Field.all d0 g (mem_field_all g) (by decide)]
    unfold stepVal
    rw [if_neg hgne, hg]

/-- C7 (counterexample): with `R_u` blocks of incompatible shapes, the
call succeeds but the field is not omitted from the result: the result
still carries the first input's `R_u` value. -/
theorem c7_cex :
    ((append_data (.list [objA, objC7]) .noLabels none).toOption.map
      (fun p => getF p.1 .fR_u)) = some (some [[5, 6]]) := by
  rfl

/-- C7 (witness): the amended statement evaluated on the concrete pair
with incompatible `R_u` shapes. -/
theorem c7_witness :
    ∃ res ws, append_data (.list [objA, objC7]) .noLabels none = .ok (res, ws) ∧
      getF res .fR_u = getF objA .fR_u ∧
      omitMsg .fR_u ∈ ws ∧
      ∀ g mm, npConcat (collectF [objA, objC7] g) = some mm →
        collectF [objA, objC7] g ≠ [] → getF res g = some mm :=
  @c7_incompatible_field_retains_first objA [objC7] ([[1, 1], [1, 1]], []) .fR_u
    (by rfl) (by decide) (by decide) (by rfl)


/-- C4: the end-to-end example: `x0=[0,1,2]`, `I0=[0,10,20]`,
`x=[-1,0.5,3]`, `mode=last_slope` gives `[-10,5,30]`: the query below the
range is extrapolated with the slope of the two lowest samples, the query
above with the slope of the two highest, and the interior query is
interpolated between its bracketing samples. -/
theorem c4_linear_ex_example :
    linear_ex [0, 1, 2] [0, 10, 20] [-1, 1/2, 3] "last_slope" = .ok [-10, 5, 30] := by
  decide

/-- C8 (counterexample): `calc_prod` on a non-list `data` with `nf=None`
does not fail fatally: it completes, returning `None` together with the
printed advisory message. -/
theorem c8_cex :
    calc_prod (.single objA) (.one (.raw [[1]])) none = .ok (none, [needNfMsg]) := by
  rfl

/-- C8 (amended): for every call of `calc_prod` whose `data` argument is
not a list and whose `nf` is missing, the user-input check prints the
advisory message and returns `None` immediately, without raising and
without building any Response Set. -/
theorem c8_missing_nf_returns_none (d : Obj) (r : RsArg) :
    calc_prod (.single d) r none = .ok (none, [needNfMsg]) := rfl

theorem lowerFix_not_slope {mode : String} (h : ¬ pyLower mode = "last_slope")
    (x0 I0 : List ℚ) (xmin : ℚ) :
    lowerFix mode x0 I0 xmin = lowerFix "last_value" x0 I0 xmin := by
  unfold lowerFix
  rw [if_neg h, if_neg (by decide : ¬ pyLower "last_value" = "last_slope")]

theorem upperFix_not_slope {mode : String} (h : ¬ pyLower mode = "last_slope")
    (x0 I0 : List ℚ) (xmax : ℚ) :
    upperFix mode x0 I0 xmax = upperFix "last_value" x0 I0 xmax := by
  unfold upperFix
  rw [if_neg h, if_neg (by decide : ¬ pyLower "last_value" = "last_slope")]

/-- C10: `linear_ex` never validates `mode`: for every mode string other
than `last_slope` (compared lowercased), the whole computation — in
particular the synthesized boundary samples for out-of-range queries — is
exactly that of `last_value` mode, with no error and no warning. -/
theorem c10_any_mode_is_last_value (x0 I0 x : List ℚ) (mode : String)
    (h : ¬ pyLower mode = "last_slope") :
    linear_ex x0 I0 x mode = linear_ex x0 I0 x "last_value" := by
  unfold linear_ex
  simp only [lowerFix_not_slope h, upperFix_not_slope h]

/-- C10 (witness): a concrete misspelled mode behaves as `last_value`. -/
theorem c10_witness : ¬ pyLower "Bogus" = "last_slope" ∧
    linear_ex [0, 1, 2] [0, 10, 20] [-1, 1/2, 3] "Bogus" =
      linear_ex [0, 1, 2] [0, 10, 20] [-1, 1/2, 3] "last_value" :=
  ⟨by decide, c10_any_mode_is_last_value [0, 1, 2] [0, 10, 20] [-1, 1/2, 3] "Bogus" (by decide)⟩

theorem dict2list_filter (D : List (String × Obj)) :
    dict2list D = ((D.filter (fun p => hasDataAttrs p.2)).map Prod.snd,
                   (D.filter (fun p => hasDataAttrs p.2)).map Prod.fst) := by
  induction D with
  | nil => rfl
  | cons p rest ih =>
      rcases p with ⟨l, d⟩
      unfold dict2list
      rw [ih]
      dsimp only
      by_cases hc : d.R.isSome ∧ d.R_std.isSome ∧ d.label.isSome
      · have hb : hasDataAttrs d = true := by
          unfold hasDataAttrs
          rcases hc with ⟨h1, h2, h3⟩
          rw [h1, h2, h3]
          rfl
        rw [if_pos hc]
        simp [List.filter_cons, hb]
      · have hb : ¬ hasDataAttrs d = true := by
          unfold hasDataAttrs
          intro hh
          rcases Bool.and_eq_true_iff.mp hh with ⟨h12, h3⟩
          rcases Bool.and_eq_true_iff.mp h12 with ⟨h1, h2⟩
          exact hc ⟨h1, h2, h3⟩
        rw [if_neg hc]
        simp [List.filter_cons, hb]

/-- C9: dictionary inputs: entries lacking any of `R`, `R_std`, `label`
are silently dropped, the survivors are processed in dictionary
(insertion) order, and `avg_data` / `append_data` on the dictionary
behave exactly as on the filtered list — `append_data` using the
surviving keys (only) as its default label prefixes. -/
theorem c9_dict_entries_filtered :
    (∀ D : List (String × Obj),
      dict2list D = ((D.filter (fun p => hasDataAttrs p.2)).map Prod.snd,
                     (D.filter (fun p => hasDataAttrs p.2)).map Prod.fst)) ∧
    (∀ (D : List (String × Obj)) (weighted : Bool) (weight : Option (List (List ℚ)))
        (rno : Bool),
      avg_data (.dict D) weighted weight rno =
        avg_data (.list ((D.filter (fun p => hasDataAttrs p.2)).map Prod.snd))
          weighted weight rno) ∧
    (∀ (D : List (String × Obj)) (index : Option (List ℕ)),
      append_data (.dict D) .noLabels index =
        append_data (.list ((D.filter (fun p => hasDataAttrs p.2)).map Prod.snd))
          (.lbls ((D.filter (fun p => hasDataAttrs p.2)).map Prod.fst)) index) := by
  refine ⟨dict2list_filter, ?_, ?_⟩
  · intro D weighted weight rno
    unfold avg_data
    dsimp only
    rw [dict2list_filter D]
  · intro D index
    unfold append_data
    dsimp only
    rw [dict2list_filter D]


theorem ones_mul_row {n : ℕ} : ∀ {l : List ℚ}, l.length ≤ n →
    List.zipWith (· * ·) (List.replicate n 1) l = l := by
  induction n with
  | zero =>
      intro l h
      rw [Nat.le_zero] at h
      rw [List.length_eq_zero.mp h]
      rfl
  | succ m ih =>
      intro l h
      cases l with
      | nil => rfl
      | cons a t =>
          rw [List.replicate_succ, List.zipWith_cons_cons, one_mul,
            ih (by simpa using h)]

theorem scaleCols_ones {n : ℕ} {m : Mat} (h : ∀ row ∈ m, row.length ≤ n) :
    scaleCols (List.replicate n 1) m = m := by
  unfold scaleCols
  calc m.map (fun row => List.zipWith (· * ·) (List.replicate n 1) row)
      = m.map (fun row => row) := List.map_congr_left (fun row hrow => ones_mul_row (h row hrow))
    _ = m := List.map_id m

theorem flat_length {c : ℕ} : ∀ {m : Mat}, (∀ row ∈ m, row.length = c) →
    (flat m).length = m.length * c := by
  intro m
  induction m with
  | nil => intro _; simp [flat]
  | cons row rest ih =>
      intro h
      unfold flat
      rw [List.flatten_cons, List.length_append, h row (List.mem_cons_self row rest)]
      have := ih (fun r hr => h r (List.mem_cons_of_mem row hr))
      unfold flat at this
      rw [this, List.length_cons]
      ring

theorem reshape_flat {c : ℕ} : ∀ {m : Mat}, (∀ row ∈ m, row.length = c) →
    reshape m.length c (flat m) = m := by
  intro m
  induction m with
  | nil => intro _; rfl
  | cons row rest ih =>
      intro h
      have hlen : row.length = c := h row (List.mem_cons_self row rest)
      show (flat (row :: rest)).take c :: reshape rest.length c ((flat (row :: rest)).drop c)
        = row :: rest
      unfold flat
      rw [List.flatten_cons, List.take_left' hlen, List.drop_left' hlen]
      rw [show rest.flatten = flat rest from rfl,
        ih (fun r hr => h r (List.mem_cons_of_mem row hr))]

theorem flat_matMap (f : ℚ → ℚ) (m : Mat) : flat (matMap f m) = (flat m).map f := by
  unfold flat matMap
  rw [List.map_flatten]

theorem reshape_replicate' : ∀ (r : ℕ) (c : ℕ) (q : ℚ),
    reshape r c (List.replicate (r * c) q) = List.replicate r (List.replicate c q) := by
  intro r
  induction r with
  | zero => intro c q; rfl
  | succ m ih =>
      intro c q
      show (List.replicate ((m + 1) * c) q).take c :: _ = _
      have he : (m + 1) * c = c + m * c := by ring
      rw [he, List.replicate_add]
      rw [List.take_left' (List.length_replicate c q), List.drop_left' (List.length_replicate c q)]
      rw [ih c q, List.replicate_succ]

theorem zipWith_map_same (f : ℚ → ℚ → ℚ) (g : ℚ → ℚ) (l : List ℚ) :
    List.zipWith f l (l.map g) = l.map (fun a => f a (g a)) := by
  induction l with
  | nil => rfl
  | cons a t ih => simp only [List.map_cons, List.zipWith_cons_cons, ih]

theorem sumAxis0_replicate : ∀ (K' : ℕ) (y : List ℚ),
    sumAxis0 (List.replicate (K' + 1) y) = y.map (fun a => ((K' + 1 : ℕ) : ℚ) * a) := by
  intro K'
  induction K' with
  | zero =>
      intro y
      show sumAxis0 [y] = _
      have : sumAxis0 [y] = y := rfl
      rw [this]
      calc y = y.map id := (List.map_id y).symm
        _ = y.map (fun a => ((1 : ℕ) : ℚ) * a) := List.map_congr_left (by
              intro a _
              simp)
  | succ m ih =>
      intro y
      rw [List.replicate_succ]
      have hcons : List.replicate (m + 1) y = y :: List.replicate m y := List.replicate_succ y (m)
      have hstep : sumAxis0 (y :: List.replicate (m + 1) y) =
          List.zipWith (· + ·) y (sumAxis0 (List.replicate (m + 1) y)) := by
        rw [hcons]
        rfl
      rw [hstep, ih y, zipWith_map_same]
      apply List.map_congr_left
      intro a _
      show a + ((m + 1 : ℕ) : ℚ) * a = ((m + 1 + 1 : ℕ) : ℚ) * a
      push_cast
      ring

theorem mulBroadcast_eq_zip {row w : List ℚ} (h : row.length = w.length) :
    mulBroadcast row w = List.zipWith (· * ·) row w := by
  unfold mulBroadcast
  by_cases hw : w.length = 1
  · rw [if_pos hw]
    rcases List.length_eq_one.mp hw with ⟨b, hb⟩
    have hrow1 : row.length = 1 := by rw [h, hw]
    rcases List.length_eq_one.mp hrow1 with ⟨a, ha⟩
    subst hb ha
    rfl
  · rw [if_neg hw]


theorem wsumR {K : ℕ} (hK : (K : ℚ) ≠ 0) : ∀ (xs vs : List ℚ), vs.length = xs.length →
    (∀ u ∈ vs, u ≠ 0) →
    (List.zipWith (· * ·) xs (vs.map (fun u => (1 / u) / ((K : ℚ) * (1 / u))))).map
      (fun a => (K : ℚ) * a) = xs
  | [], [], _, _ => rfl
  | [], _ :: _, hlen, _ => by simp at hlen
  | _ :: _, [], hlen, _ => by simp at hlen
  | x :: xs, u :: vs, hlen, hnz => by
      simp only [List.map_cons, List.zipWith_cons_cons]
      have hu : u ≠ 0 := hnz u (List.mem_cons_self u vs)
      have h1 : (K : ℚ) * (x * ((1 / u) / ((K : ℚ) * (1 / u)))) = x := by
        have ha : (1 : ℚ) / u ≠ 0 := one_div_ne_zero hu
        field_simp
      rw [h1, wsumR hK xs vs (by simpa using hlen)
        (fun w hw => hnz w (List.mem_cons_of_mem u hw))]

theorem wsumV {K : ℕ} (hK : (K : ℚ) ≠ 0) : ∀ (vs : List ℚ), (∀ u ∈ vs, u ≠ 0) →
    (List.zipWith (· * ·) vs ((vs.map (fun u => (1 / u) / ((K : ℚ) * (1 / u)))).map
        (fun q => q * q))).map (fun a => (K : ℚ) * a) = vs.map (fun u => u / (K : ℚ))
  | [], _ => rfl
  | u :: vs, hnz => by
      simp only [List.map_cons, List.zipWith_cons_cons]
      have hu : u ≠ 0 := hnz u (List.mem_cons_self u vs)
      have h1 : (K : ℚ) * (u * ((1 / u) / ((K : ℚ) * (1 / u)) *
          ((1 / u) / ((K : ℚ) * (1 / u))))) = u / (K : ℚ) := by
        have ha : (1 : ℚ) / u ≠ 0 := one_div_ne_zero hu
        field_simp
        ring
      rw [h1, wsumV hK vs (fun w hw => hnz w (List.mem_cons_of_mem u hw))]

theorem normWeights_replicate (vs : List ℚ) (K' : ℕ) :
    normWeights (List.replicate (K' + 1) (vs.map (fun u => 1 / u))) =
      List.replicate (K' + 1)
        (vs.map (fun u => (1 / u) / (((K' + 1 : ℕ) : ℚ) * (1 / u)))) := by
  unfold normWeights
  rw [sumAxis0_replicate, List.map_replicate]
  congr 1
  rw [zipWith_map_same, List.map_map]
  rfl

theorem combineW_replicate {xs vs : List ℚ} {K : ℕ} (hK : 1 ≤ K)
    (hlen : vs.length = xs.length) (weighted : Bool)
    (hnz : weighted = true → ∀ u ∈ vs, u ≠ 0) :
    combineW (List.replicate K xs) (List.replicate K vs) weighted none =
      (xs, vs.map (fun u => u / (K : ℚ))) := by
  obtain ⟨K', rfl⟩ : ∃ K', K = K' + 1 := ⟨K - 1, by omega⟩
  have hKQ : ((K' + 1 : ℕ) : ℚ) ≠ 0 := Nat.cast_ne_zero.mpr (by omega)
  unfold combineW
  cases weighted with
  | false =>
      simp only [Bool.false_eq_true, if_false, List.length_replicate, List.map_replicate]
      rw [sumAxis0_replicate, sumAxis0_replicate, List.map_map, List.map_map]
      refine Prod.ext ?_ ?_ <;> dsimp only
      · calc xs.map ((fun a => ((K' + 1 : ℕ) : ℚ) * a) ∘
              fun x => x * (1 / ((K' + 1 : ℕ) : ℚ)))
            = xs.map (fun x => x) := List.map_congr_left (by
              intro a _
              show ((K' + 1 : ℕ) : ℚ) * (a * (1 / ((K' + 1 : ℕ) : ℚ))) = a
              field_simp)
          _ = xs := List.map_id xs
      · apply List.map_congr_left
        intro a _
        show ((K' + 1 : ℕ) : ℚ) * (a * (1 / ((K' + 1 : ℕ) : ℚ) * (1 / ((K' + 1 : ℕ) : ℚ))))
          = a / ((K' + 1 : ℕ) : ℚ)
        field_simp
        ring
  | true =>
      have hnz' : ∀ u ∈ vs, u ≠ 0 := hnz rfl
      simp only [if_true, List.map_replicate]
      rw [normWeights_replicate vs K']
      rw [List.zipWith_replicate', List.zipWith_replicate', sumAxis0_replicate,
        sumAxis0_replicate]
      have hwlen : (vs.map (fun u => (1 / u) / (((K' + 1 : ℕ) : ℚ) * (1 / u)))).length
          = xs.length := by
        rw [List.length_map, hlen]
      refine Prod.ext ?_ ?_
      · show (mulBroadcast xs (vs.map (fun u => (1 / u) / (((K' + 1 : ℕ) : ℚ) * (1 / u))))).map
            (fun a => ((K' + 1 : ℕ) : ℚ) * a) = xs
        rw [mulBroadcast_eq_zip hwlen.symm]
        exact wsumR hKQ xs vs hlen hnz'
      · show (mulBroadcast vs ((vs.map (fun u => (1 / u) / (((K' + 1 : ℕ) : ℚ) * (1 / u)))).map
            (fun q => q * q))).map (fun a => ((K' + 1 : ℕ) : ℚ) * a)
          = vs.map (fun u => u / ((K' + 1 : ℕ) : ℚ))
        rw [mulBroadcast_eq_zip (by rw [List.length_map, List.length_map])]
        exact wsumV hKQ vs hnz'

theorem avgStacks_replicate {SZ : ℕ × ℕ} {d : Obj} {vec : List ℚ} {Rd Sd : Mat}
    (hR : d.R = some Rd) (hS : d.R_std = some Sd)
    (hr : (flat (scaleCols vec Rd)).length = SZ.1 * SZ.2)
    (hv : (flat (matMap (fun x => x * x) Sd)).length = SZ.1 * SZ.2) :
    ∀ k, avgStacks SZ (List.zipWith (fun dd s => (dd, s))
        (List.replicate k d) (List.replicate k vec)) =
      .ok (List.replicate k (flat (scaleCols vec Rd)),
           List.replicate k (flat (matMap (fun x => x * x) Sd))) := by
  intro k
  rw [List.zipWith_replicate']
  induction k with
  | zero => rfl
  | succ m ih =>
      rw [List.replicate_succ]
      unfold avgStacks
      rw [hR, hS]
      dsimp only
      rw [if_pos ⟨hr, hv⟩]
      simp only [ih, Bind.bind, Except.bind]
      rfl


/-- C1 (amended): averaging `k ≥ 1` identical copies of one Response Set
(whose profile, when present, satisfies the sign-check guard `SensOK`),
with `weighted` either true or false, `weight=None`, and uniform input
variance `v` (every `R_std` entry squares to `v`, with `v ≠ 0` when
weighting is enabled), returns the original response matrix `R` unchanged
and an `R_std` that is the elementwise `numpy.sqrt` of the constant
combined-variance matrix `v / k`. -/
theorem c1_avg_identical_copies {d : Obj} {R0 S0 : Mat} {v : ℚ} {k : ℕ} {weighted : Bool}
    (hR : d.R = some R0) (hS : d.R_std = some S0)
    (hrectR : ∀ row ∈ R0, row.length = colsOf R0)
    (hrows : S0.length = R0.length)
    (hrectS : ∀ row ∈ S0, row.length = colsOf R0)
    (hsens : SensOK d R0)
    (hk : 1 ≤ k)
    (hv : ∀ x ∈ flat S0, x * x = v)
    (hw : weighted = true → v ≠ 0) :
    avg_data (.list (List.replicate k d)) weighted none false =
      .ok ({ d with R := some R0,
                    R_std := some (List.replicate R0.length
                      (List.replicate (colsOf R0) (ratSqrt (v / (k : ℚ))))),
                    R_u := none, R_l := none }, []) := by
  obtain ⟨k2, rfl⟩ : ∃ k2, k = k2 + 1 := ⟨k - 1, by omega⟩
  have hones : scaleCols (List.replicate (colsOf R0) 1) R0 = R0 :=
    scaleCols_ones (fun row hrow => le_of_eq (hrectR row hrow))
  have hflatR : (flat R0).length = R0.length * colsOf R0 := flat_length hrectR
  have hSshape : ∀ row ∈ matMap (fun x => x * x) S0, row.length = colsOf R0 := by
    intro row hrow
    rcases List.mem_map.mp hrow with ⟨r0, hr0, hre⟩
    rw [← hre, List.length_map]
    exact hrectS r0 hr0
  have hflatS : (flat (matMap (fun x => x * x) S0)).length = R0.length * colsOf R0 := by
    rw [flat_length hSshape]
    unfold matMap
    rw [List.length_map, hrows]
  have hvflat_all : ∀ y ∈ flat (matMap (fun x => x * x) S0), y = v := by
    intro y hy
    rw [flat_matMap] at hy
    rcases List.mem_map.mp hy with ⟨x, hx, hxe⟩
    rw [← hxe]
    exact hv x hx
  have hnz' : weighted = true → ∀ u ∈ flat (matMap (fun x => x * x) S0), u ≠ 0 := by
    intro hwt u hu
    rw [hvflat_all u hu]
    exact hw hwt
  have hlen2 : (flat (matMap (fun x => x * x) S0)).length = (flat R0).length := by
    rw [hflatS, hflatR]
  have hss2 : sens_sign_check d (d :: List.replicate k2 d) =
      .ok (List.replicate (k2 + 1) (List.replicate (colsOf R0) 1), []) := by
    rw [← List.replicate_succ]
    exact ssc_self hR hsens (k2 + 1)
  have hr1 : (flat (scaleCols (List.replicate (colsOf R0) 1) R0)).length =
      (matShape R0).1 * (matShape R0).2 := by
    rw [hones]
    exact hflatR
  have hv1 : (flat (matMap (fun x => x * x) S0)).length =
      (matShape R0).1 * (matShape R0).2 :=
    hflatS
  have hstacks := avgStacks_replicate hR hS hr1 hv1 (k2 + 1)
  rw [hones] at hstacks
  have hcomb := @combineW_replicate (flat R0) (flat (matMap (fun x => x * x) S0))
    (k2 + 1) (by omega) hlen2 weighted hnz'
  unfold avg_data
  rw [List.replicate_succ]
  dsimp only
  rw [hR, hss2]
  simp only [Bind.bind, Except.bind]
  rw [← List.replicate_succ, hstacks]
  simp only []
  rw [hcomb]
  dsimp only
  have hresh : reshape (matShape R0).1 (matShape R0).2 (flat R0) = R0 := reshape_flat hrectR
  rw [hresh]
  have hvc : (flat (matMap (fun x => x * x) S0)).map (fun u => u / ((k2 + 1 : ℕ) : ℚ)) =
      List.replicate (R0.length * colsOf R0) (v / ((k2 + 1 : ℕ) : ℚ)) := by
    have hmem : ∀ y ∈ (flat (matMap (fun x => x * x) S0)).map
        (fun u => u / ((k2 + 1 : ℕ) : ℚ)), y = v / ((k2 + 1 : ℕ) : ℚ) := by
      intro y hy
      rcases List.mem_map.mp hy with ⟨u, hu, hue⟩
      rw [← hue, hvflat_all u hu]
    have := List.eq_replicate_of_mem hmem
    rwa [List.length_map, hflatS] at this
  rw [hvc]
  have hresh2 : reshape (matShape R0).1 (matShape R0).2
      (List.replicate (R0.length * colsOf R0) (v / ((k2 + 1 : ℕ) : ℚ))) =
      List.replicate R0.length (List.replicate (colsOf R0) (v / ((k2 + 1 : ℕ) : ℚ))) :=
    reshape_replicate' R0.length (colsOf R0) _
  rw [hresh2]
  unfold matMap
  rw [List.map_replicate, List.map_replicate]
  simp only [Bool.false_eq_true, if_false]


/-- C1 (counterexample): one identical copy (`k = 1`) of a Response Set
carrying a (self-matching) 5-sample sensitivity profile: weighted
averaging does not return the response matrix — it fails with the
zero-step slice error of the sign check, so the claim as stated is false. -/
theorem c1_cex :
    avg_data (.list (List.replicate 1 obj5)) true none false =
      .error "slice step cannot be zero" := by
  rfl

/-- C1 (witness): the amended statement evaluated at two copies of a
concrete profile-free Response Set with unit variance. -/
theorem c1_witness :
    avg_data (.list (List.replicate 2 objC1)) true none false =
      .ok ({ objC1 with R := some [[2]],
                        R_std := some [[ratSqrt ((1 : ℚ) / ((2 : ℕ) : ℚ))]],
                        R_u := none, R_l := none }, []) := by
  have h := @c1_avg_identical_copies objC1 [[2]] [[1]] 1 2 true rfl rfl (by decide)
    (by decide) (by decide) (Or.inl rfl) (by decide) (by decide) (fun _ => one_ne_zero)
  simpa using h

/-- C2 (witness): the frame property evaluated on a concrete one-object
store: averaging allocates the result cell and leaves cell 0 unchanged. -/
theorem c2_witness :
    avg_data_st [objC1] [0] false none false = .ok [objC1, objC1] ∧
    Store.get [objC1, objC1] 0 = Store.get [objC1] 0 :=
  ⟨by decide,
   c2_inputs_unchanged.1 [objC1] [0] false none false [objC1, objC1] 0 (by decide) (by decide)⟩

end DRtools
